import Mathlib

/-
  Verification of the `weights` disk-usage tool (src/main.rs).

  The program scans a directory tree, computes the aggregate size of every
  entry (one concurrently spawned `resolve` per subdirectory, joined with
  `join_all` before the parent finalises), sorts every directory's children
  with `list.sort_by(|a, b| b.cmp(a))`, and prints the finished tree
  depth-first with each entry's percentage of its direct parent.

  This file is a shallow embedding of that program:
  * `FSType` / `FSEntity` mirror the Rust result types of the same names;
  * `FSNode` models the input filesystem as seen through the async-std API,
    including the three failure points the code handles (`read_dir` failing,
    `next()` yielding `Err`, `file_type()` failing) and a file whose
    `metadata` call fails (`meta = none`);
  * `resolveDir` / `scanItems` embed `FSEntity::folder` / `calculate_size`;
    u64 addition is modelled on `Nat` with an explicit `% U64` where the
    source (`self.size += ...sum::<u64>()`) can wrap;
  * `printP` embeds `print`, returning `none` where the source would reach
    the `panic!("Invalid FSType")` branch of `FSType::list`; the percentage
    is modelled in exact rational arithmetic (the source computes it in
    `f64`; the range and guard structure are identical);
  * warnings written to stderr are collected in a list (their interleaving
    across concurrent tasks is not modelled, only which warnings are
    emitted).
-/

namespace Weights

def U64 : Nat := 2 ^ 64

/-- Three-way comparison on a linear order, the value Rust's `Ord::cmp`
returns for the primitive component types (`u64`, paths). -/
def cmp3 {α : Type} [LinearOrder α] (a b : α) : Ordering :=
  if a < b then .lt else if a = b then .eq else .gt

mutual
/-- Mirrors `enum FSType { Folder(Vec<FSEntity>), File }` (src/main.rs:12). -/
inductive FSType : Type where
  | Folder : List FSEntity → FSType
  | File : FSType

/-- Mirrors `struct FSEntity { path, size, kind }` (src/main.rs:63);
`size: u64` is embedded as `Nat` (with wrap-around made explicit at the
one addition that can overflow), `path: PathBuf` as `String`. -/
inductive FSEntity : Type where
  | mk : String → Nat → FSType → FSEntity
end

def FSEntity.path : FSEntity → String
  | .mk p _ _ => p

def FSEntity.size : FSEntity → Nat
  | .mk _ s _ => s

def FSEntity.kind : FSEntity → FSType
  | .mk _ _ k => k

/-- Numeric view of `impl Ord for FSType` (src/main.rs:23): `File` is below
`Folder`, two values with the same constructor compare `Equal`. -/
def FSType.rank : FSType → Nat
  | .Folder _ => 1
  | .File => 0

/-- `FSType::cmp` (src/main.rs:24-30), expressed through `rank`:
`(File, Folder) ↦ lt`, `(Folder, File) ↦ gt`, otherwise `eq`. -/
def FSType.cmp (a b : FSType) : Ordering :=
  cmp3 a.rank b.rank

/-- `FSType::list` (src/main.rs:34-39): returns the children of a `Folder`
and panics (modelled as `none`) on a `File`. -/
def FSType.list : FSType → Option (List FSEntity)
  | .Folder l => some l
  | .File => none

/-- `FSType::printable_description` (src/main.rs:48-53). -/
def FSType.printable_description : FSType → String
  | .Folder _ => "FOLDER"
  | .File => "FILE"

/-- `impl Ord for FSEntity` (src/main.rs:75-81): compare kind, then size,
then path, combined with `Ordering::then`. `PathBuf` ordering is modelled
as string ordering: siblings share their parent-directory prefix, so
comparing them reduces to comparing file names either way. -/
def FSEntity.cmp (a b : FSEntity) : Ordering :=
  ((FSType.cmp a.kind b.kind).then (cmp3 a.size b.size)).then (cmp3 a.path b.path)

/-- The order `list.sort_by(|a, b| b.cmp(a))` (src/main.rs:154) sorts into:
`a` may precede `b` exactly when the comparator `b.cmp(a)` is not `Greater`. -/
def sortLe (a b : FSEntity) : Prop :=
  FSEntity.cmp b a ≠ .gt

instance : DecidableRel sortLe := fun a b =>
  inferInstanceAs (Decidable (FSEntity.cmp b a ≠ .gt))

/-- `list.sort_by(|a, b| b.cmp(a))`: a stable sort by the reversed entity
order. Rust's `sort_by` and `List.insertionSort` are both stable, and a
stable sort's output is unique, so they agree pointwise. -/
def sortDesc (l : List FSEntity) : List FSEntity :=
  List.insertionSort sortLe l

/-- The input filesystem as observed through the async-std calls the
program makes. `file name meta`: a directory entry whose `file_type()` says
file, with `metadata().len()` equal to `meta` (`none` models a failing
`metadata` call). `dir name ok items`: an entry whose `file_type()` is not
a file; `ok = false` models `read_dir` failing on it. `entryErr`: the
directory stream yields `Err` (src/main.rs:136). `typeErr`: `file_type()`
fails (src/main.rs:141). -/
inductive FSNode : Type where
  | file (name : String) (meta : Option Nat)
  | dir (name : String) (ok : Bool) (items : List FSNode)
  | entryErr
  | typeErr (name : String)

/-- `entry.path()`: the parent path joined with the entry's file name. -/
def childPath (dir name : String) : String :=
  dir ++ "/" ++ name

/-- `FSEntity::file` (src/main.rs:106-113): size is the metadata length, or
0 when `metadata` fails (`unwrap_or(0)`, no warning). -/
def FSEntity.fileEntity (path : String) (meta : Option Nat) : FSEntity :=
  .mk path (meta.getD 0) .File

def warnEntry : String := "ERROR: Getting next entry"
def warnType : String := "ERROR: Getting file type"

mutual
/-- `FSEntity::folder` + `calculate_size` (src/main.rs:115-159).
If `read_dir` fails the function returns 0 immediately — the entity keeps
`kind = Folder(vec![])` and no warning is emitted. Otherwise the loop
pushes file children in scan order, spawns one task per non-file child,
appends the joined results (in spawn order) after the files, sorts with
`sort_by(|a, b| b.cmp(a))`, and the size (initially 0) becomes the sum of
all children's sizes, wrapping as `u64` addition does. The second
component collects the warnings printed to stderr. -/
def resolveDir (path : String) (ok : Bool) (items : List FSNode) :
    FSEntity × List String :=
  if ok then
    let r := scanItems path items
    let list := sortDesc (r.1 ++ r.2.1)
    (.mk path (((list.map FSEntity.size).sum) % U64) (.Folder list), r.2.2)
  else
    (.mk path 0 (.Folder []), [])

/-- The `while let Some(entry) = dir.next()` loop of `calculate_size`
(src/main.rs:135-151): returns (file children in scan order, resolved
subdirectory children in spawn order, warnings). -/
def scanItems (path : String) : List FSNode → List FSEntity × List FSEntity × List String
  | [] => ([], [], [])
  | .file n meta :: rest =>
      let r := scanItems path rest
      (FSEntity.fileEntity (childPath path n) meta :: r.1, r.2.1, r.2.2)
  | .dir n ok sub :: rest =>
      let c := resolveDir (childPath path n) ok sub
      let r := scanItems path rest
      (r.1, c.1 :: r.2.1, c.2 ++ r.2.2)
  | .entryErr :: rest =>
      let r := scanItems path rest
      (r.1, r.2.1, warnEntry :: r.2.2)
  | .typeErr _ :: rest =>
      let r := scanItems path rest
      (r.1, r.2.1, warnType :: r.2.2)
end

/-- The percentage shown for an entry (src/main.rs:170-174):
`if entity.size != 0 { entity.size * 100 / parent.size } else { 0.0 }`,
modelled in exact rational arithmetic (the source uses `f64`; the branch
structure is identical and the guard is on the child's size). -/
def ratioQ (psize esize : Nat) : ℚ :=
  if esize ≠ 0 then (esize : ℚ) * 100 / (psize : ℚ) else 0

/-- One line of program output. `header` is the `current_dir` line printed
by `main` (src/main.rs:191); `entry` carries the semantic fields of a
`println!` line of `print` (src/main.rs:176-181): kind label, size,
percentage of the direct parent, depth (which determines the `|...|_`
marker), and path. The byte-count and path-truncation formatting helpers
are display-only and modelled separately (`format_path` below). -/
inductive OutLine : Type where
  | header (cwd : String)
  | entry (label : String) (size : Nat) (pct : ℚ) (level : Nat) (path : String)

def OutLine.path : OutLine → String
  | .header c => c
  | .entry _ _ _ _ p => p

mutual
/-- `print` (src/main.rs:162-187): iterates `parent.kind.list()` — which
panics on a `File`, modelled by `none` — printing each child's line and
recursing (with `level + 1`) into children whose kind is `Folder`. -/
def printP : FSEntity → Nat → Option (List OutLine)
  | .mk _ s (.Folder cs), level => printChildrenP s cs level
  | .mk _ _ .File, _ => none

/-- The `for entity in list.iter()` loop of `print` (src/main.rs:168-186). -/
def printChildrenP (psize : Nat) : List FSEntity → Nat → Option (List OutLine)
  | [], _ => some []
  | .mk p s (.Folder cs) :: rest, level => do
      let sub ← printP (.mk p s (.Folder cs)) (level + 1)
      let tail ← printChildrenP psize rest level
      some (.entry (FSType.printable_description (.Folder cs)) s (ratioQ psize s) level p
              :: (sub ++ tail))
  | .mk p s .File :: rest, level => do
      let tail ← printChildrenP psize rest level
      some (.entry "FILE" s (ratioQ psize s) level p :: tail)
end

/-- `main` (src/main.rs:189-195): prints the current directory, resolves
`"."`, and prints the tree. `cwd` stands for the `current_dir()` string;
`ok`/`items` describe what the filesystem returns for `"."`. -/
def programOutput (cwd : String) (ok : Bool) (items : List FSNode) :
    Option (List OutLine) :=
  (printP (resolveDir "." ok items).1 0).map (fun ls => OutLine.header cwd :: ls)

mutual
/-- Depth-first pre-order listing of the entries of a resolved tree. -/
def preorder : FSEntity → List FSEntity
  | .mk p s (.Folder cs) => .mk p s (.Folder cs) :: preorderL cs
  | .mk p s .File => [.mk p s .File]

def preorderL : List FSEntity → List FSEntity
  | [] => []
  | e :: rest => preorder e ++ preorderL rest
end

mutual
/-- Sum of all file metadata lengths reachable in an input node: an upper
bound on any size the program can compute for it. -/
def FSNode.total : FSNode → Nat
  | .file _ meta => meta.getD 0
  | .dir _ _ items => totalItems items
  | .entryErr => 0
  | .typeErr _ => 0

def totalItems : List FSNode → Nat
  | [] => 0
  | n :: rest => FSNode.total n + totalItems rest
end

/-- The file name a directory entry contributes, when it contributes one. -/
def FSNode.name? : FSNode → Option String
  | .file n _ => some n
  | .dir n _ _ => some n
  | .entryErr => none
  | .typeErr _ => none

mutual
/-- Well-formedness of one directory listing: the entry names are distinct
(true of a real directory listing), here and recursively below. -/
def namesOkDir (items : List FSNode) : Bool :=
  decide (items.filterMap FSNode.name?).Nodup && namesOkList items
termination_by 2 * sizeOf items + 1
decreasing_by all_goals (simp_wf ; try omega)

def namesOk : FSNode → Bool
  | .file _ _ => true
  | .entryErr => true
  | .typeErr _ => true
  | .dir _ _ items => namesOkDir items
termination_by n => 2 * sizeOf n
decreasing_by all_goals (simp_wf ; try omega)

def namesOkList : List FSNode → Bool
  | [] => true
  | n :: rest => namesOk n && namesOkList rest
termination_by l => 2 * sizeOf l
decreasing_by all_goals (simp_wf ; try omega)
end

mutual
/-- `resolveDir` with the completion order of spawned subdirectory tasks
made explicit: `sched` reorders the list of joined child results before it
is appended after the files. In the source `join_all` always yields results
in spawn order (`sched = id`); an execution where results arrived in
completion order corresponds to a `sched` that permutes its input. -/
def resolveDirS (sched : List FSEntity → List FSEntity) (path : String)
    (ok : Bool) (items : List FSNode) : FSEntity × List String :=
  if ok then
    let r := scanItemsS sched path items
    let list := sortDesc (r.1 ++ sched r.2.1)
    (.mk path (((list.map FSEntity.size).sum) % U64) (.Folder list), r.2.2)
  else
    (.mk path 0 (.Folder []), [])

def scanItemsS (sched : List FSEntity → List FSEntity) (path : String) :
    List FSNode → List FSEntity × List FSEntity × List String
  | [] => ([], [], [])
  | .file n meta :: rest =>
      let r := scanItemsS sched path rest
      (FSEntity.fileEntity (childPath path n) meta :: r.1, r.2.1, r.2.2)
  | .dir n ok sub :: rest =>
      let c := resolveDirS sched (childPath path n) ok sub
      let r := scanItemsS sched path rest
      (r.1, c.1 :: r.2.1, c.2 ++ r.2.2)
  | .entryErr :: rest =>
      let r := scanItemsS sched path rest
      (r.1, r.2.1, warnEntry :: r.2.2)
  | .typeErr _ :: rest =>
      let r := scanItemsS sched path rest
      (r.1, r.2.1, warnType :: r.2.2)
end

/-- UTF-8 byte length of a string: what Rust's `str::len` returns. -/
def byteLen (s : String) : Nat :=
  (s.data.map Char.utf8Size).sum

/-- The characters making up the first `i` bytes of the text, or `none`
when byte index `i` is not a character boundary (where Rust's `&s[0..i]`
panics). -/
def byteTake : List Char → Nat → Option (List Char)
  | _, 0 => some []
  | [], _ + 1 => none
  | c :: rest, i + 1 =>
      if c.utf8Size ≤ i + 1 then (byteTake rest (i + 1 - c.utf8Size)).map (c :: ·)
      else none

/-- The characters after the first `i` bytes of the text, or `none` when
byte index `i` is not a character boundary (where Rust's `&s[i..]` panics). -/
def byteDrop : List Char → Nat → Option (List Char)
  | l, 0 => some l
  | [], _ + 1 => none
  | c :: rest, i + 1 =>
      if c.utf8Size ≤ i + 1 then byteDrop rest (i + 1 - c.utf8Size)
      else none

/-- `format_path` (src/main.rs:95-103) on the UTF-8 string form of a path:
returns the string unchanged when its byte length is at most 50, otherwise
glues `&out[0..20]`, `"..."` and `&out[len-20..]`; `none` models the panic
raised by byte-index slicing off a character boundary. -/
def format_path (s : String) : Option String :=
  let len := byteLen s
  if len > 50 then
    match byteTake s.data 20, byteDrop s.data (len - 20) with
    | some a, some b => some (String.mk a ++ "..." ++ String.mk b)
    | _, _ => none
  else
    some s

/-- The children of an entity: those of a `Folder`, none for a `File`. -/
def FSEntity.children (e : FSEntity) : List FSEntity :=
  match e.kind with
  | .Folder cs => cs
  | .File => []

/-- The sort key an entity is compared by: kind rank, then size, then path,
lexicographically. -/
def key (e : FSEntity) : ℕ ×ₗ (ℕ ×ₗ String) :=
  toLex (e.kind.rank, toLex (e.size, e.path))

/-- The sibling ordering exactly as the claim states it: kind descending,
size descending within a kind, and path ASCENDING as the final tie-break. -/
def specAsc (a b : FSEntity) : Prop :=
  b.kind.rank ≤ a.kind.rank ∧
  (a.kind.rank = b.kind.rank → b.size ≤ a.size) ∧
  (a.kind.rank = b.kind.rank → a.size = b.size → a.path ≤ b.path)

/-- The sibling ordering the code actually produces: kind descending, size
descending, path DESCENDING as the final tie-break. -/
def specDesc (a b : FSEntity) : Prop :=
  b.kind.rank ≤ a.kind.rank ∧
  (a.kind.rank = b.kind.rank → b.size ≤ a.size) ∧
  (a.kind.rank = b.kind.rank → a.size = b.size → b.path ≤ a.path)

/-- The percentage as the spec's words define it: `child * 100 / parent`,
defined as 0 when the parent's size is 0. -/
def specPct (p c : ℕ) : ℚ :=
  if p = 0 then 0 else (c : ℚ) * 100 / (p : ℚ)

/-- A 52-byte path whose byte 20 falls inside the two-byte character `é`. -/
def mixedPath : String :=
  String.mk (List.replicate 19 'a' ++ ['é'] ++ List.replicate 31 'a')

@[simp] theorem path_mk (p : String) (s : ℕ) (k : FSType) :
    (FSEntity.mk p s k).path = p := rfl

@[simp] theorem size_mk (p : String) (s : ℕ) (k : FSType) :
    (FSEntity.mk p s k).size = s := rfl

@[simp] theorem kind_mk (p : String) (s : ℕ) (k : FSType) :
    (FSEntity.mk p s k).kind = k := rfl

theorem cmp3_lt_iff {α : Type} [LinearOrder α] {a b : α} :
    cmp3 a b = .lt ↔ a < b := by
  unfold cmp3
  by_cases h1 : a < b
  · simp [h1]
  · by_cases h2 : a = b <;> simp [h1, h2]

theorem cmp3_eq_iff {α : Type} [LinearOrder α] {a b : α} :
    cmp3 a b = .eq ↔ a = b := by
  unfold cmp3
  by_cases h1 : a < b
  · simp [h1]
    exact fun h => absurd (h ▸ h1) (lt_irrefl b)
  · by_cases h2 : a = b <;> simp [h1, h2]

theorem cmp3_gt_iff {α : Type} [LinearOrder α] {a b : α} :
    cmp3 a b = .gt ↔ b < a := by
  unfold cmp3
  by_cases h1 : a < b
  · simp [h1]
    exact le_of_lt h1
  · by_cases h2 : a = b
    · simp [h1, h2]
    · simp [h1, h2]
      exact lt_of_le_of_ne (le_of_not_lt h1) (Ne.symm h2)

theorem cmp_eq_lt_iff {a b : FSEntity} :
    FSEntity.cmp a b = .lt ↔ key a < key b := by
  unfold FSEntity.cmp key FSType.cmp
  rw [Ordering.then_eq_lt, Ordering.then_eq_lt, Ordering.then_eq_eq,
    Prod.Lex.lt_iff]
  simp only [Prod.Lex.lt_iff, cmp3_lt_iff, cmp3_eq_iff]
  tauto

theorem cmp_eq_gt_iff {a b : FSEntity} :
    FSEntity.cmp a b = .gt ↔ key b < key a := by
  unfold FSEntity.cmp key FSType.cmp
  rw [Ordering.then_eq_gt, Ordering.then_eq_gt, Ordering.then_eq_eq,
    Prod.Lex.lt_iff]
  simp only [Prod.Lex.lt_iff, cmp3_gt_iff, cmp3_eq_iff]
  tauto

theorem cmp_eq_eq_iff {a b : FSEntity} :
    FSEntity.cmp a b = .eq ↔ key a = key b := by
  unfold FSEntity.cmp key FSType.cmp
  rw [Ordering.then_eq_eq, Ordering.then_eq_eq]
  constructor
  · rintro ⟨⟨h1, h2⟩, h3⟩
    rw [cmp3_eq_iff] at h1 h2 h3
    simp [h1, h2, h3]
  · intro h
    have h' := congrArg ofLex h
    have h1 : a.kind.rank = b.kind.rank := congrArg Prod.fst h'
    have h2' := congrArg (fun x => ofLex x.2) h'
    have h2 : a.size = b.size := congrArg Prod.fst h2'
    have h3 : a.path = b.path := congrArg Prod.snd h2'
    simp [cmp3_eq_iff, h1, h2, h3]

theorem sortLe_iff {a b : FSEntity} : sortLe a b ↔ key b ≤ key a := by
  unfold sortLe
  rw [← not_lt]
  exact not_congr cmp_eq_gt_iff

instance : IsTotal FSEntity sortLe :=
  ⟨fun a b => by
    rw [sortLe_iff, sortLe_iff]
    exact (le_total (key b) (key a)).imp id id⟩

instance : IsTrans FSEntity sortLe :=
  ⟨fun a b c hab hbc => by
    rw [sortLe_iff] at *
    exact le_trans hbc hab⟩

theorem sorted_sortDesc (l : List FSEntity) : (sortDesc l).Sorted sortLe :=
  List.sorted_insertionSort sortLe l

theorem perm_sortDesc (l : List FSEntity) : (sortDesc l).Perm l :=
  List.perm_insertionSort sortLe l

/-- Two sorted lists that are permutations of one another and contain no
two distinct key-equal entities are equal: the sorted result is unique, so
any stable (indeed any) sort by this comparator produces the same list. -/
theorem sorted_perm_eq : ∀ {l₁ l₂ : List FSEntity}, l₁.Perm l₂ →
    l₁.Sorted sortLe → l₂.Sorted sortLe →
    (∀ a ∈ l₁, ∀ b ∈ l₁, key a = key b → a = b) → l₁ = l₂
  | [], l₂, hp, _, _, _ => hp.nil_eq
  | a :: t₁, l₂, hp, hs₁, hs₂, hinj => by
    cases l₂ with
    | nil => exact absurd hp.symm (by simp)
    | cons b t₂ =>
      have hab : a = b := by
        have hbmem : b ∈ a :: t₁ := hp.mem_iff.mpr (List.mem_cons_self b t₂)
        have hamem : a ∈ b :: t₂ := hp.mem_iff.mp (List.mem_cons_self a t₁)
        rcases List.mem_cons.mp hbmem with h | h
        · exact h.symm
        rcases List.mem_cons.mp hamem with h' | h'
        · exact h'
        have h1 : sortLe a b := List.rel_of_sorted_cons hs₁ b h
        have h2 : sortLe b a := List.rel_of_sorted_cons hs₂ a h'
        exact hinj a (List.mem_cons_self a t₁) b (List.mem_cons.mpr (Or.inr h))
          (le_antisymm (sortLe_iff.mp h2) (sortLe_iff.mp h1))
      subst hab
      have ht : t₁.Perm t₂ := hp.cons_inv
      have htl := sorted_perm_eq ht hs₁.of_cons hs₂.of_cons
        (fun x hx y hy hxy =>
          hinj x (List.mem_cons.mpr (Or.inr hx)) y (List.mem_cons.mpr (Or.inr hy)) hxy)
      rw [htl]

theorem self_mem_preorder (e : FSEntity) : e ∈ preorder e := by
  cases e with
  | mk p s k => cases k <;> simp [preorder]

theorem mem_preorderL {e : FSEntity} : ∀ {l : List FSEntity},
    e ∈ preorderL l ↔ ∃ c ∈ l, e ∈ preorder c := by
  intro l
  induction l with
  | nil => simp [preorderL]
  | cons c rest ih => simp [preorderL, List.mem_append, ih]

mutual
/-- Every directory node of a resolved tree has size equal to the (u64)
sum of its children's sizes and a children list sorted by the program's
comparator. -/
theorem resolve_inv (path : String) (ok : Bool) (items : List FSNode) :
    ∀ e ∈ preorder (resolveDir path ok items).1, ∀ cs, e.kind = .Folder cs →
      e.size = (cs.map FSEntity.size).sum % U64 ∧ cs.Sorted sortLe := by
  intro e he cs hcs
  simp only [resolveDir] at he
  split at he
  · simp only [preorder, List.mem_cons] at he
    rcases he with he | he
    · subst he
      simp only [kind_mk, FSType.Folder.injEq] at hcs
      subst hcs
      exact ⟨rfl, sorted_sortDesc _⟩
    · rcases mem_preorderL.mp he with ⟨c, hc, hec⟩
      have hc' : c ∈ (scanItems path items).1 ++ (scanItems path items).2.1 :=
        (perm_sortDesc _).mem_iff.mp hc
      exact scan_inv path items c hc' e hec cs hcs
  · simp only [preorder, preorderL, List.mem_singleton] at he
    subst he
    simp only [kind_mk, FSType.Folder.injEq] at hcs
    subst hcs
    simp [preorderL]
termination_by 2 * sizeOf items + 1
decreasing_by all_goals (simp_wf ; try omega)

theorem scan_inv (path : String) (items : List FSNode) :
    ∀ c ∈ (scanItems path items).1 ++ (scanItems path items).2.1,
      ∀ e ∈ preorder c, ∀ cs, e.kind = .Folder cs →
        e.size = (cs.map FSEntity.size).sum % U64 ∧ cs.Sorted sortLe := by
  match items with
  | [] =>
      intro c hc
      rw [scanItems] at hc
      simp at hc
  | .file n meta :: rest =>
      intro c hc e he cs hcs
      rw [scanItems] at hc
      simp only [List.cons_append, List.mem_cons] at hc
      rcases hc with hc | hc
      · subst hc
        simp only [FSEntity.fileEntity, preorder, List.mem_singleton] at he
        subst he
        simp at hcs
      · exact scan_inv path rest c hc e he cs hcs
  | .dir n ok sub :: rest =>
      intro c hc e he cs hcs
      rw [scanItems] at hc
      simp only [List.mem_append, List.mem_cons] at hc
      rcases hc with hc | hc | hc
      · exact scan_inv path rest c (List.mem_append.mpr (Or.inl hc)) e he cs hcs
      · subst hc
        exact resolve_inv (childPath path n) ok sub e he cs hcs
      · exact scan_inv path rest c (List.mem_append.mpr (Or.inr hc)) e he cs hcs
  | .entryErr :: rest =>
      intro c hc
      rw [scanItems] at hc
      exact scan_inv path rest c hc
  | .typeErr m :: rest =>
      intro c hc
      rw [scanItems] at hc
      exact scan_inv path rest c hc
termination_by 2 * sizeOf items
decreasing_by all_goals (simp_wf ; try omega)
end

mutual
/-- A resolved size never exceeds the sum of the file metadata lengths
below the node (failures only shrink it). -/
theorem resolve_size_le (path : String) (ok : Bool) (items : List FSNode) :
    (resolveDir path ok items).1.size ≤ totalItems items := by
  simp only [resolveDir]
  split
  · simp only [size_mk]
    have h1 : (((sortDesc ((scanItems path items).1 ++ (scanItems path items).2.1)).map
        FSEntity.size).sum) % U64
        ≤ (((sortDesc ((scanItems path items).1 ++ (scanItems path items).2.1)).map
        FSEntity.size).sum) := Nat.mod_le _ _
    have h2 : (((sortDesc ((scanItems path items).1 ++ (scanItems path items).2.1)).map
        FSEntity.size).sum)
        = ((((scanItems path items).1 ++ (scanItems path items).2.1).map
        FSEntity.size).sum) := ((perm_sortDesc _).map _).sum_eq
    have h3 := scan_size_le path items
    omega
  · simp only [size_mk]
    exact Nat.zero_le _
termination_by 2 * sizeOf items + 1
decreasing_by all_goals (simp_wf ; try omega)

theorem scan_size_le (path : String) (items : List FSNode) :
    ((((scanItems path items).1 ++ (scanItems path items).2.1).map FSEntity.size).sum)
      ≤ totalItems items := by
  match items with
  | [] => simp [scanItems, totalItems]
  | .file n meta :: rest =>
      have ih := scan_size_le path rest
      simp only [scanItems, totalItems, FSNode.total, List.cons_append, List.map_cons,
        List.sum_cons, FSEntity.fileEntity, size_mk]
      omega
  | .dir n ok sub :: rest =>
      have ih := scan_size_le path rest
      have hr := resolve_size_le (childPath path n) ok sub
      simp only [scanItems, totalItems, FSNode.total]
      rw [List.map_append, List.sum_append, List.map_cons, List.sum_cons]
      rw [List.map_append, List.sum_append] at ih
      omega
  | .entryErr :: rest =>
      have ih := scan_size_le path rest
      simp only [scanItems, totalItems, FSNode.total]
      omega
  | .typeErr m :: rest =>
      have ih := scan_size_le path rest
      simp only [scanItems, totalItems, FSNode.total]
      omega
termination_by 2 * sizeOf items
decreasing_by all_goals (simp_wf ; try omega)
end

mutual
/-- When the total amount of data below the scanned root fits in a u64, no
size computation wraps: every directory node's size is exactly the sum of
its children's sizes. -/
theorem resolve_exact (path : String) (ok : Bool) (items : List FSNode)
    (h : totalItems items < U64) :
    ∀ e ∈ preorder (resolveDir path ok items).1, ∀ cs, e.kind = .Folder cs →
      e.size = (cs.map FSEntity.size).sum := by
  intro e he cs hcs
  simp only [resolveDir] at he
  split at he
  · simp only [preorder, List.mem_cons] at he
    rcases he with he | he
    · subst he
      simp only [kind_mk, FSType.Folder.injEq] at hcs
      subst hcs
      simp only [size_mk]
      have h2 : (((sortDesc ((scanItems path items).1 ++ (scanItems path items).2.1)).map
          FSEntity.size).sum)
          = ((((scanItems path items).1 ++ (scanItems path items).2.1).map
          FSEntity.size).sum) := ((perm_sortDesc _).map _).sum_eq
      have h3 := scan_size_le path items
      exact Nat.mod_eq_of_lt (by omega)
    · rcases mem_preorderL.mp he with ⟨c, hc, hec⟩
      have hc' : c ∈ (scanItems path items).1 ++ (scanItems path items).2.1 :=
        (perm_sortDesc _).mem_iff.mp hc
      exact scan_exact path items h c hc' e hec cs hcs
  · simp only [preorder, preorderL, List.mem_singleton] at he
    subst he
    simp only [kind_mk, FSType.Folder.injEq] at hcs
    subst hcs
    simp
termination_by 2 * sizeOf items + 1
decreasing_by all_goals (simp_wf ; try omega)

theorem scan_exact (path : String) (items : List FSNode)
    (h : totalItems items < U64) :
    ∀ c ∈ (scanItems path items).1 ++ (scanItems path items).2.1,
      ∀ e ∈ preorder c, ∀ cs, e.kind = .Folder cs →
        e.size = (cs.map FSEntity.size).sum := by
  match items with
  | [] =>
      intro c hc
      rw [scanItems] at hc
      simp at hc
  | .file n meta :: rest =>
      intro c hc e he cs hcs
      rw [scanItems] at hc
      simp only [List.cons_append, List.mem_cons] at hc
      rcases hc with hc | hc
      · subst hc
        simp only [FSEntity.fileEntity, preorder, List.mem_singleton] at he
        subst he
        simp at hcs
      · have h' : totalItems rest < U64 := by
          simp only [totalItems] at h; omega
        exact scan_exact path rest h' c hc e he cs hcs
  | .dir n ok sub :: rest =>
      intro c hc e he cs hcs
      rw [scanItems] at hc
      have hsub : FSNode.total (.dir n ok sub) = totalItems sub := by
        rw [FSNode.total]
      have h1 : totalItems sub < U64 := by
        simp only [totalItems, hsub] at h; omega
      have h2 : totalItems rest < U64 := by
        simp only [totalItems] at h; omega
      simp only [List.mem_append, List.mem_cons] at hc
      rcases hc with hc | hc | hc
      · exact scan_exact path rest h2 c (List.mem_append.mpr (Or.inl hc)) e he cs hcs
      · subst hc
        exact resolve_exact (childPath path n) ok sub h1 e he cs hcs
      · exact scan_exact path rest h2 c (List.mem_append.mpr (Or.inr hc)) e he cs hcs
  | .entryErr :: rest =>
      intro c hc
      rw [scanItems] at hc
      have h' : totalItems rest < U64 := by
        simp only [totalItems, FSNode.total] at h; omega
      exact scan_exact path rest h' c hc
  | .typeErr m :: rest =>
      intro c hc
      rw [scanItems] at hc
      have h' : totalItems rest < U64 := by
        simp only [totalItems, FSNode.total] at h; omega
      exact scan_exact path rest h' c hc
termination_by 2 * sizeOf items
decreasing_by all_goals (simp_wf ; try omega)
end

theorem resolve_path (path : String) (ok : Bool) (items : List FSNode) :
    (resolveDir path ok items).1.path = path := by
  simp only [resolveDir]
  split <;> simp

/-- The paths of a scan's produced children are, up to the reordering of
files before directories, the good entry names prefixed with the parent
path. -/
theorem scan_paths (path : String) (items : List FSNode) :
    ((((scanItems path items).1 ++ (scanItems path items).2.1).map FSEntity.path)).Perm
      ((items.filterMap FSNode.name?).map (childPath path)) := by
  match items with
  | [] => simp [scanItems]
  | .file n meta :: rest =>
      have ih := scan_paths path rest
      simp only [scanItems, List.cons_append, List.map_cons, List.filterMap_cons,
        FSNode.name?, FSEntity.fileEntity, path_mk]
      exact ih.cons _
  | .dir n ok sub :: rest =>
      have ih := scan_paths path rest
      simp only [scanItems, FSNode.name?, List.filterMap_cons, List.map_cons]
      rw [List.map_append, List.map_cons, resolve_path]
      refine List.perm_middle.trans (List.Perm.cons _ ?_)
      rw [← List.map_append]
      exact ih
  | .entryErr :: rest =>
      have ih := scan_paths path rest
      simp only [scanItems, List.filterMap_cons, FSNode.name?]
      exact ih
  | .typeErr m :: rest =>
      have ih := scan_paths path rest
      simp only [scanItems, List.filterMap_cons, FSNode.name?]
      exact ih

mutual
/-- Printing any folder-kind entity succeeds (never reaches the `File`
panic branch) and emits exactly one line per entry below the folder, in
depth-first pre-order (witnessed by the path sequence). -/
theorem printP_some (p : String) (s : ℕ) (cs : List FSEntity) (level : ℕ) :
    ∃ ls, printP (.mk p s (.Folder cs)) level = some ls ∧
      ls.map OutLine.path = (preorderL cs).map FSEntity.path := by
  rw [printP]
  exact printChildrenP_some s cs level
termination_by 2 * sizeOf cs + 1
decreasing_by all_goals (simp_wf ; try omega)

theorem printChildrenP_some (psize : ℕ) (cs : List FSEntity) (level : ℕ) :
    ∃ ls, printChildrenP psize cs level = some ls ∧
      ls.map OutLine.path = (preorderL cs).map FSEntity.path := by
  match cs with
  | [] => exact ⟨[], by rw [printChildrenP], by simp [preorderL]⟩
  | .mk p s (.Folder cs') :: rest =>
      obtain ⟨sub, hsub, hsubp⟩ := printP_some p s cs' (level + 1)
      obtain ⟨tail, htail, htailp⟩ := printChildrenP_some psize rest level
      refine ⟨.entry (FSType.printable_description (.Folder cs')) s (ratioQ psize s) level p
        :: (sub ++ tail), ?_, ?_⟩
      · rw [printChildrenP, hsub, htail]
        rfl
      · simp only [List.map_cons, List.map_append, OutLine.path, hsubp, htailp,
          preorderL, preorder, path_mk, List.cons_append]
  | .mk p s .File :: rest =>
      obtain ⟨tail, htail, htailp⟩ := printChildrenP_some psize rest level
      refine ⟨.entry "FILE" s (ratioQ psize s) level p :: tail, ?_, ?_⟩
      · rw [printChildrenP, htail]
        rfl
      · simp only [List.map_cons, OutLine.path, htailp, preorderL, preorder, path_mk,
          List.singleton_append]
termination_by 2 * sizeOf cs
decreasing_by all_goals (simp_wf ; try omega)
end

theorem resolve_shape (path : String) (ok : Bool) (items : List FSNode) :
    ∃ sz cs, (resolveDir path ok items).1 = .mk path sz (.Folder cs) := by
  simp only [resolveDir]
  split
  · exact ⟨_, _, rfl⟩
  · exact ⟨_, _, rfl⟩

theorem childPath_inj (d : String) : Function.Injective (childPath d) := by
  intro a b h
  unfold childPath at h
  have h' : (d ++ "/").data ++ a.data = (d ++ "/").data ++ b.data := by
    rw [← String.data_append, ← String.data_append, h]
  exact String.ext (List.append_cancel_left h')

theorem key_eq_path {a b : FSEntity} (h : key a = key b) : a.path = b.path :=
  congrArg (fun x => (ofLex (ofLex x).2).2) h

/-- With distinct entry names, the children produced for one directory have
pairwise distinct paths. -/
theorem scan_nodup_paths (path : String) (items : List FSNode)
    (h : (items.filterMap FSNode.name?).Nodup) :
    (((scanItems path items).1 ++ (scanItems path items).2.1).map FSEntity.path).Nodup :=
  (scan_paths path items).nodup_iff.mpr (h.map (childPath_inj path))

mutual
/-- Completion-order independence: however the spawned subdirectory tasks'
results are permuted before being appended (any `sched` that only
reorders), the resolved entity is the one `join_all`'s spawn order gives —
the final sort erases the arrival order, because distinct sibling names
make the comparator's ties impossible. -/
theorem resolveS_eq (sched : List FSEntity → List FSEntity)
    (hs : ∀ l, (sched l).Perm l) (path : String) (ok : Bool) (items : List FSNode)
    (h : namesOkDir items = true) :
    resolveDirS sched path ok items = resolveDir path ok items := by
  have hh := h
  rw [namesOkDir, Bool.and_eq_true, decide_eq_true_eq] at hh
  rw [resolveDirS, resolveDir, scanS_eq sched hs path items hh.2]
  cases ok
  · rfl
  · rw [if_pos rfl, if_pos rfl]
    have hperm0 : ((scanItems path items).1 ++ sched (scanItems path items).2.1).Perm
        ((scanItems path items).1 ++ (scanItems path items).2.1) :=
      List.Perm.append_left _ (hs _)
    have hnodup := scan_nodup_paths path items hh.1
    have hsort : sortDesc ((scanItems path items).1 ++ sched (scanItems path items).2.1)
        = sortDesc ((scanItems path items).1 ++ (scanItems path items).2.1) := by
      apply sorted_perm_eq
      · exact (perm_sortDesc _).trans (hperm0.trans (perm_sortDesc _).symm)
      · exact sorted_sortDesc _
      · exact sorted_sortDesc _
      · intro a ha b hb hk
        exact List.inj_on_of_nodup_map hnodup
          (((perm_sortDesc _).trans hperm0).mem_iff.mp ha)
          (((perm_sortDesc _).trans hperm0).mem_iff.mp hb)
          (key_eq_path hk)
    simp only [hsort]
termination_by 2 * sizeOf items + 1
decreasing_by all_goals (simp_wf ; try omega)

theorem scanS_eq (sched : List FSEntity → List FSEntity)
    (hs : ∀ l, (sched l).Perm l) (path : String) (items : List FSNode)
    (h : namesOkList items = true) :
    scanItemsS sched path items = scanItems path items := by
  match items with
  | [] => rw [scanItemsS, scanItems]
  | .file n meta :: rest =>
      have h' : namesOkList rest = true := by
        rw [namesOkList, Bool.and_eq_true] at h
        exact h.2
      rw [scanItemsS, scanItems, scanS_eq sched hs path rest h']
  | .dir n ok sub :: rest =>
      have hh := h
      rw [namesOkList, Bool.and_eq_true] at hh
      have h1 : namesOkDir sub = true := by
        have h2 := hh.1
        rwa [namesOk] at h2
      rw [scanItemsS, scanItems, scanS_eq sched hs path rest hh.2,
        resolveS_eq sched hs (childPath path n) ok sub h1]
  | .entryErr :: rest =>
      have h' : namesOkList rest = true := by
        rw [namesOkList, Bool.and_eq_true] at h
        exact h.2
      rw [scanItemsS, scanItems, scanS_eq sched hs path rest h']
  | .typeErr m :: rest =>
      have h' : namesOkList rest = true := by
        rw [namesOkList, Bool.and_eq_true] at h
        exact h.2
      rw [scanItemsS, scanItems, scanS_eq sched hs path rest h']
termination_by 2 * sizeOf items
decreasing_by all_goals (simp_wf ; try omega)
end

/-- C1: for every resolved directory Entry, its size equals the sum of its
direct children's sizes (exactly, provided the data below the root fits in
a u64 so the modelled u64 addition does not wrap), and for every file
Entry, its size equals the file's metadata length, or 0 if the metadata
could not be read. -/
theorem c1_sizes :
    (∀ (path : String) (ok : Bool) (items : List FSNode),
      totalItems items < U64 →
      ∀ e ∈ preorder (resolveDir path ok items).1, ∀ cs, e.kind = .Folder cs →
        e.size = (cs.map FSEntity.size).sum) ∧
    (∀ (path : String) (n : ℕ), (FSEntity.fileEntity path (some n)).size = n) ∧
    (∀ path : String, (FSEntity.fileEntity path none).size = 0) :=
  ⟨resolve_exact, fun _ _ => rfl, fun _ => rfl⟩

/-- C1 witness: scenario A's root has size 160 = 10 + 100 + 50, the sum of
its three children's sizes. -/
theorem c1_sizes_witness :
    (resolveDir "A" true [.file "f1" (some 100), .file "f2" (some 50),
        .dir "B" true [.file "f3" (some 10)]]).1.size
      = (([FSEntity.mk "A/B" 10 (.Folder [.mk "A/B/f3" 10 .File]),
           .mk "A/f1" 100 .File, .mk "A/f2" 50 .File] : List FSEntity).map
           FSEntity.size).sum := by
  have hk : (resolveDir "A" true [.file "f1" (some 100), .file "f2" (some 50),
      .dir "B" true [.file "f3" (some 10)]]).1.kind
      = .Folder [.mk "A/B" 10 (.Folder [.mk "A/B/f3" 10 .File]),
          .mk "A/f1" 100 .File, .mk "A/f2" 50 .File] := by
    simp +decide [resolveDir, scanItems, sortDesc, FSEntity.fileEntity, childPath, U64,
      List.insertionSort, List.orderedInsert, sortLe, FSEntity.cmp, FSType.cmp, cmp3,
      FSType.rank]
  exact c1_sizes.1 "A" true _
    (by simp +decide [totalItems, FSNode.total, U64]) _ (self_mem_preorder _) _ hk

/-- C2 counterexample: in a directory with two files of equal size 5 named
`a` and `b`, the resolved children come out as [d/b, d/a] — path
DESCENDING — so the path-ascending tie-break the claim states fails for
the adjacent sibling pair. -/
theorem c2_counterexample :
    (resolveDir "d" true [.file "a" (some 5), .file "b" (some 5)]).1.kind
      = .Folder [.mk "d/b" 5 .File, .mk "d/a" 5 .File] ∧
    ¬ specAsc (.mk "d/b" 5 .File) (.mk "d/a" 5 .File) := by
  constructor
  · simp +decide [resolveDir, scanItems, sortDesc, FSEntity.fileEntity, childPath, U64,
      List.insertionSort, List.orderedInsert, sortLe, FSEntity.cmp, FSType.cmp, cmp3,
      FSType.rank]
  · unfold specAsc
    intro h
    exact absurd (h.2.2 rfl rfl) (by
      rw [String.le_iff_toList_le]
      decide)

/-- C2 amended: for any two siblings a preceding b in a resolved
directory's children, kind(a) ≥ kind(b) (Directory above File); on equal
kinds size(a) ≥ size(b); on equal kind and size path(a) ≥ path(b) — the
final tie-break is path DESCENDING, because `sort_by(|a, b| b.cmp(a))`
reverses the whole comparator, path component included. -/
theorem c2_sibling_order (path : String) (ok : Bool) (items : List FSNode) :
    ∀ e ∈ preorder (resolveDir path ok items).1, ∀ cs, e.kind = .Folder cs →
      cs.Pairwise specDesc := by
  intro e he cs hcs
  have hsorted := (resolve_inv path ok items e he cs hcs).2
  refine hsorted.imp ?_
  intro a b hab
  rw [sortLe_iff] at hab
  unfold key at hab
  simp only [Prod.Lex.le_iff, Prod.Lex.lt_iff] at hab
  unfold specDesc
  rcases hab with h | ⟨h1, h2⟩
  · exact ⟨le_of_lt h, fun he' => by omega, fun he' _ => by omega⟩
  · rcases h2 with h3 | ⟨h4, h5⟩
    · exact ⟨le_of_eq h1, fun _ => le_of_lt h3, fun _ hse => by omega⟩
    · exact ⟨le_of_eq h1, fun _ => le_of_eq h4, fun _ _ => h5⟩

/-- C2 amended witness: scenario A's children [A/B, A/f1, A/f2] satisfy
the descending sibling order. -/
theorem c2_sibling_order_witness :
    ([FSEntity.mk "A/B" 10 (.Folder [.mk "A/B/f3" 10 .File]),
      .mk "A/f1" 100 .File, .mk "A/f2" 50 .File] : List FSEntity).Pairwise specDesc := by
  have hk : (resolveDir "A" true [.file "f1" (some 100), .file "f2" (some 50),
      .dir "B" true [.file "f3" (some 10)]]).1.kind
      = .Folder [.mk "A/B" 10 (.Folder [.mk "A/B/f3" 10 .File]),
          .mk "A/f1" 100 .File, .mk "A/f2" 50 .File] := by
    simp +decide [resolveDir, scanItems, sortDesc, FSEntity.fileEntity, childPath, U64,
      List.insertionSort, List.orderedInsert, sortLe, FSEntity.cmp, FSType.cmp, cmp3,
      FSType.rank]
  exact c2_sibling_order "A" true
    [.file "f1" (some 100), .file "f2" (some 50), .dir "B" true [.file "f3" (some 10)]]
    _ (self_mem_preorder _) _ hk

/-- C3: every printed percentage agrees with the spec formula
`child.size * 100 / parent.size` (0 when the parent's size is 0) and lies
in [0, 100]; the division-by-zero case is unreachable because a
zero-size parent forces zero-size children, which take the `else 0`
branch. Stated for the resolved tree with no u64 wrap-around. -/
theorem c3_percentages (path : String) (ok : Bool) (items : List FSNode)
    (h : totalItems items < U64) :
    ∀ p ∈ preorder (resolveDir path ok items).1, ∀ cs, p.kind = .Folder cs →
    ∀ c ∈ cs,
      ratioQ p.size c.size = specPct p.size c.size ∧
      0 ≤ ratioQ p.size c.size ∧ ratioQ p.size c.size ≤ 100 ∧
      (p.size = 0 → ratioQ p.size c.size = 0) := by
  intro p hp cs hcs c hc
  have hsum := resolve_exact path ok items h p hp cs hcs
  have hle : c.size ≤ p.size := by
    rw [hsum]
    exact List.single_le_sum (fun _ _ => Nat.zero_le _) _ (List.mem_map_of_mem _ hc)
  by_cases hcz : c.size = 0
  · rw [hcz]
    unfold ratioQ specPct
    by_cases hpz : p.size = 0 <;> simp [hpz]
  · have hpz : p.size ≠ 0 := fun hp0 => hcz (Nat.le_zero.mp (hp0 ▸ hle))
    have hppos : (0 : ℚ) < (p.size : ℚ) := by
      exact_mod_cast Nat.pos_of_ne_zero hpz
    have heq : ratioQ p.size c.size = (c.size : ℚ) * 100 / (p.size : ℚ) := by
      unfold ratioQ
      rw [if_pos hcz]
    refine ⟨?_, ?_, ?_, fun hp0 => absurd hp0 hpz⟩
    · unfold specPct
      rw [heq, if_neg hpz]
    · rw [heq]
      positivity
    · rw [heq, div_le_iff₀ hppos]
      have hlq : (c.size : ℚ) ≤ (p.size : ℚ) := by exact_mod_cast hle
      linarith

/-- C3 witness: scenario A's root (size 160) and its child B (size 10):
the printed percentage is 10 * 100 / 160 and lies in [0, 100]. -/
theorem c3_percentages_witness :
    ratioQ 160 10 = specPct 160 10 ∧
    0 ≤ ratioQ 160 10 ∧ ratioQ 160 10 ≤ 100 ∧ ((160 : ℕ) = 0 → ratioQ 160 10 = 0) := by
  have hk : (resolveDir "A" true [.file "f1" (some 100), .file "f2" (some 50),
      .dir "B" true [.file "f3" (some 10)]]).1.kind
      = .Folder [.mk "A/B" 10 (.Folder [.mk "A/B/f3" 10 .File]),
          .mk "A/f1" 100 .File, .mk "A/f2" 50 .File] := by
    simp +decide [resolveDir, scanItems, sortDesc, FSEntity.fileEntity, childPath, U64,
      List.insertionSort, List.orderedInsert, sortLe, FSEntity.cmp, FSType.cmp, cmp3,
      FSType.rank]
  have h := c3_percentages "A" true
    [.file "f1" (some 100), .file "f2" (some 50), .dir "B" true [.file "f3" (some 10)]]
    (by simp +decide [totalItems, FSNode.total, U64]) _ (self_mem_preorder _) _ hk
    (FSEntity.mk "A/B" 10 (.Folder [.mk "A/B/f3" 10 .File])) (by simp)
  have hsz : (resolveDir "A" true [.file "f1" (some 100), .file "f2" (some 50),
      .dir "B" true [.file "f3" (some 10)]]).1.size = 160 := by
    simp +decide [resolveDir, scanItems, sortDesc, FSEntity.fileEntity, childPath, U64,
      List.insertionSort, List.orderedInsert, sortLe, FSEntity.cmp, FSType.cmp, cmp3,
      FSType.rank]
  rw [hsz] at h
  simpa using h

/-- C4 counterexample: a directory whose listing fails resolves to size 0
with no children, but NO warning is emitted for it — the `let Ok(mut dir)
= read_dir(..) else { return 0 }` branch is silent, contradicting the
claimed stderr warning. -/
theorem c4_counterexample :
    (resolveDir "./d" false [.file "x" (some 3)]).1 = .mk "./d" 0 (.Folder []) ∧
    (resolveDir "./d" false [.file "x" (some 3)]).2 = [] := by
  constructor <;> simp [resolveDir]

/-- C4 amended: a scan-level failure is not fatal — the directory's Entry
resolves with size 0 and zero children — but no stderr warning is
reported for it (the code's warnings cover only per-entry and file-type
failures). -/
theorem c4_scan_failure (path : String) (items : List FSNode) :
    resolveDir path false items = (.mk path 0 (.Folder []), []) := by
  simp [resolveDir]

/-- C5: scenario A — directory A holding f1 = 100 bytes, f2 = 50 bytes and
subdirectory B holding f3 = 10 bytes resolves to B.size = 10,
A.size = 160, children ordered [B, f1, f2], with percentages
B = 6.25, f1 = 62.50, f2 = 31.25. -/
theorem c5_scenario_a :
    (resolveDir "A" true [.file "f1" (some 100), .file "f2" (some 50),
        .dir "B" true [.file "f3" (some 10)]]).1
      = .mk "A" 160 (.Folder
          [.mk "A/B" 10 (.Folder [.mk "A/B/f3" 10 .File]),
           .mk "A/f1" 100 .File, .mk "A/f2" 50 .File]) ∧
    ratioQ 160 10 = 6.25 ∧ ratioQ 160 100 = 62.50 ∧ ratioQ 160 50 = 31.25 := by
  refine ⟨?_, ?_, ?_, ?_⟩
  · simp +decide [resolveDir, scanItems, sortDesc, FSEntity.fileEntity, childPath, U64,
      List.insertionSort, List.orderedInsert, sortLe, FSEntity.cmp, FSType.cmp, cmp3,
      FSType.rank]
  · unfold ratioQ
    norm_num
  · unfold ratioQ
    norm_num
  · unfold ratioQ
    norm_num

/-- C6: the program emits the current-directory header line plus exactly
one line per entry of the resolved tree, in depth-first pre-order
(witnessed by the printed path sequence equalling the pre-order path
sequence); an empty root resolves to size 0 with zero children and
produces the header line only. -/
theorem c6_output_lines (cwd : String) (ok : Bool) (items : List FSNode) :
    (∃ rest, programOutput cwd ok items = some (OutLine.header cwd :: rest) ∧
      rest.map OutLine.path
        = (preorderL (resolveDir "." ok items).1.children).map FSEntity.path ∧
      (OutLine.header cwd :: rest).length
        = (preorder (resolveDir "." ok items).1).length) ∧
    programOutput cwd true [] = some [OutLine.header cwd] ∧
    (resolveDir "." true []).1 = .mk "." 0 (.Folder []) := by
  have h0 : (resolveDir "." true ([] : List FSNode)).1 = .mk "." 0 (.Folder []) := by
    simp +decide [resolveDir, scanItems, sortDesc, U64, List.insertionSort]
  refine ⟨?_, ?_, h0⟩
  · obtain ⟨sz, cs, hshape⟩ := resolve_shape "." ok items
    obtain ⟨ls, hls, hpaths⟩ := printP_some "." sz cs 0
    refine ⟨ls, ?_, ?_, ?_⟩
    · rw [programOutput, hshape, hls]
      rfl
    · rw [hshape, hpaths]
      simp [FSEntity.children]
    · rw [hshape]
      have hlen := congrArg List.length hpaths
      simp only [List.length_map] at hlen
      simp [preorder, hlen]
  · rw [programOutput, h0, printP, printChildrenP]
    rfl

/-- C7: a scan failure on one subdirectory degrades exactly that node to
size 0 with no children — resolving it is literally equal to resolving an
empty readable directory — and substituting one for the other anywhere in
a parent's listing leaves the parent's resolution (sizes, ordering,
warnings) unchanged, so the failure never propagates. -/
theorem c7_fault_isolation :
    (∀ (path : String) (items : List FSNode),
      resolveDir path false items = resolveDir path true []) ∧
    (∀ (path n : String) (sub pre post : List FSNode),
      resolveDir path true (pre ++ .dir n false sub :: post)
        = resolveDir path true (pre ++ .dir n true [] :: post)) := by
  have hnode : ∀ (path : String) (items : List FSNode),
      resolveDir path false items = resolveDir path true [] := by
    intro path items
    simp +decide [resolveDir, scanItems, sortDesc, U64, List.insertionSort]
  refine ⟨hnode, ?_⟩
  intro path n sub pre post
  have hscan : scanItems path (pre ++ .dir n false sub :: post)
      = scanItems path (pre ++ .dir n true [] :: post) := by
    induction pre with
    | nil => simp only [List.nil_append, scanItems, hnode]
    | cons x pre' ih => cases x <;> simp only [List.cons_append, scanItems, ih]
  simp only [resolveDir, hscan]

/-- C8: the output is independent of the completion order of the
concurrently spawned subdirectory computations: for any reordering
`sched` of the joined results (applied at every directory level), the
resolved tree — and hence the printed output — is identical to the one
produced in `join_all`'s spawn order, provided sibling entry names are
distinct as they are on a real filesystem. Resolving twice is then
byte-identical because `resolveDir` and `printP` are functions of the
input tree alone. -/
theorem c8_deterministic (sched : List FSEntity → List FSEntity)
    (hs : ∀ l, (sched l).Perm l) (path : String) (ok : Bool) (items : List FSNode)
    (h : namesOkDir items = true) :
    resolveDirS sched path ok items = resolveDir path ok items ∧
    printP (resolveDirS sched path ok items).1 0 = printP (resolveDir path ok items).1 0 :=
  ⟨resolveS_eq sched hs path ok items h, by
    rw [resolveS_eq sched hs path ok items h]⟩

/-- C8 witness: with results arriving reversed, resolving a directory with
two subdirectories still yields the spawn-order result. -/
theorem c8_deterministic_witness :
    resolveDirS List.reverse "A" true [.dir "c" true [], .dir "d" true []]
      = resolveDir "A" true [.dir "c" true [], .dir "d" true []] :=
  (c8_deterministic List.reverse (fun l => l.reverse_perm) "A" true
    [.dir "c" true [], .dir "d" true []]
    (by simp +decide [namesOkDir, namesOkList, namesOk, FSNode.name?])).1

/-- C9: reading the children list of a File-kind value is the one panic
(`FSType::list`, modelled by `none`); `print` reads children only through
that accessor, and printing any resolved tree succeeds — the panic branch
is unreachable because resolution only ever hands `print` Folder-kind
entities and `print` recurses only into Folder-kind children. -/
theorem c9_invalid_kind :
    FSType.list .File = none ∧
    (∀ cs : List FSEntity, FSType.list (.Folder cs) = some cs) ∧
    (∀ (p : String) (s : ℕ) (k : FSType) (level : ℕ),
      printP (.mk p s k) level = (FSType.list k).bind fun cs => printChildrenP s cs level) ∧
    (∀ (path : String) (ok : Bool) (items : List FSNode) (level : ℕ),
      ∃ ls, printP (resolveDir path ok items).1 level = some ls) := by
  refine ⟨rfl, fun _ => rfl, ?_, ?_⟩
  · intro p s k level
    cases k <;> rw [printP] <;> rfl
  · intro path ok items level
    obtain ⟨sz, cs, hshape⟩ := resolve_shape path ok items
    obtain ⟨ls, hls, _⟩ := printP_some path sz cs level
    exact ⟨ls, by rw [hshape, hls]⟩

/-- C10: `format_path` returns any path of at most 50 UTF-8 bytes
unchanged, and panics (modelled by `none`) on a 52-byte path whose byte
20 falls inside a multi-byte character, instead of returning a truncated
string. -/
theorem c10_format_path :
    (∀ s : String, byteLen s ≤ 50 → format_path s = some s) ∧
    byteLen mixedPath = 52 ∧ format_path mixedPath = none := by
  refine ⟨?_, by decide, by decide⟩
  intro s h
  simp only [format_path]
  rw [if_neg (by omega)]

/-- C10 witness: a short path goes through unchanged. -/
theorem c10_format_path_witness : format_path "abc" = some "abc" :=
  c10_format_path.1 "abc" (by decide)

end Weights
